import Mathlib

/-!
Shallow embedding of the log4cplus logger core (repository `alenmathew/log4cpus`).

The repository's `src/include/log4cplus/logger.h` defines the `Logger` handle,
whose inline bodies forward to a `LoggerImpl` node (`value->...`) except for
`Logger::assertion`, whose body is given in the header itself.  The node and
hierarchy implementations (`LoggerImpl`, `Hierarchy`, `loglevel.h`) are not
part of the sources, so those operations are modelled from the specification
(§3, §4.2–§4.4 of the design document), while `assertion` is translated
directly from the source at logger.h:146–151.
-/

namespace Log4cplus

/-- Modelled from the spec: the severity values of `loglevel.h` (not in src/).
The spec fixes only the total order TRACE < DEBUG < INFO < WARN < ERROR <
FATAL < OFF; the concrete numerals realise that order. -/
def TRACE_LOG_LEVEL : Nat := 0

/-- Modelled from the spec: DEBUG severity. -/
def DEBUG_LOG_LEVEL : Nat := 10000

/-- Modelled from the spec: INFO severity. -/
def INFO_LOG_LEVEL : Nat := 20000

/-- Modelled from the spec: WARN severity. -/
def WARN_LOG_LEVEL : Nat := 30000

/-- Modelled from the spec: ERROR severity. -/
def ERROR_LOG_LEVEL : Nat := 40000

/-- Modelled from the spec: FATAL severity. -/
def FATAL_LOG_LEVEL : Nat := 50000

/-- Modelled from the spec: OFF severity, the maximum of the order. -/
def OFF_LOG_LEVEL : Nat := 60000

/-- The six severities at which an event can actually be emitted
(OFF is only a threshold, never a message severity). -/
def eventLogLevels : List Nat :=
  [TRACE_LOG_LEVEL, DEBUG_LOG_LEVEL, INFO_LOG_LEVEL,
   WARN_LOG_LEVEL, ERROR_LOG_LEVEL, FATAL_LOG_LEVEL]

/-- Modelled from the spec (§3 LoggerNode, §9 arena note): a tree node holding
name, optional assigned level, additivity flag, attached appender identities
(in attachment order), and the parent's arena index (`none` for root).
Appenders are shared-ownership objects; they are represented here by their
identity (an index into the hierarchy's appender registry). -/
structure LoggerNode where
  name : String
  assignedLevel : Option Nat
  additive : Bool
  appenders : List Nat
  parent : Option Nat
deriving DecidableEq, Repr, Inhabited

/-- Modelled from the spec (§3 Appender, §8 counting mock): the observable
state of one shared appender — its identity, its `closed` flag (set exactly
once) and a count of `close()` invocations, used to state shutdown
idempotence. -/
structure MockAppender where
  id : Nat
  closed : Bool
  closeCount : Nat
deriving DecidableEq, Repr, Inhabited

/-- Modelled from the spec (§3 Hierarchy, §9 arena note): the registry of
nodes (index 0 is root), the appender registry, and the shut-down flag set by
the terminal `shutdown()` operation. -/
structure Hierarchy where
  nodes : List LoggerNode
  apps : List MockAppender
  shutDown : Bool
deriving DecidableEq, Repr, Inhabited

/-- Parent-link well-formedness of the node stored at arena index `i`:
root (index 0) has no parent, every other node has a parent at a strictly
smaller index (the spec's acyclic, root-terminated parent chain). -/
def parentOK (i : Nat) (n : LoggerNode) : Bool :=
  match n.parent with
  | none => i == 0
  | some p => decide (p < i)

/-- Spec invariants of a hierarchy (§3): root is present, root holds a
concrete assigned level, and every parent link points strictly towards root. -/
def WF (h : Hierarchy) : Prop :=
  h.nodes ≠ [] ∧
  ((h.nodes.getD 0 default).assignedLevel).isSome = true ∧
  ∀ i, i < h.nodes.length → parentOK i (h.nodes.getD i default) = true

instance (h : Hierarchy) : Decidable (WF h) := by
  unfold WF
  infer_instance

/-- Modelled from the spec (§4.2): the parent walk of
`LoggerImpl::getChainedLogLevel`, with explicit fuel bounding the number of
parent links followed.  Returns `none` when the fuel runs out, the index is
out of range, or a parentless node has no assigned level. -/
def chainedLevelAux (h : Hierarchy) : Nat → Nat → Option Nat
  | 0, _ => none
  | fuel + 1, i =>
    match h.nodes[i]? with
    | none => none
    | some n =>
      match n.assignedLevel with
      | some l => some l
      | none =>
        match n.parent with
        | some p => chainedLevelAux h fuel p
        | none => none

/-- Modelled from the spec (§4.2): `getChainedLogLevel()` at node `i`.
Under `WF` the parent indices strictly decrease, so `i + 1` steps of fuel
always suffice (proved below). -/
def getChainedLogLevel (h : Hierarchy) (i : Nat) : Option Nat :=
  chainedLevelAux h (i + 1) i

/-- Modelled from the spec (§4.2): `isEnabledFor(ll)` — true iff `ll`'s
severity is at least the chained level's severity. -/
def isEnabledFor (h : Hierarchy) (i : Nat) (ll : Nat) : Bool :=
  match getChainedLogLevel h i with
  | some cl => decide (cl ≤ ll)
  | none => false

/-- Modelled from the spec (§4.3 dispatch algorithm): the appender cascade
starting at node `i`, with fuel bounding the ancestor walk.  Returns the
identities of the appenders whose `append` is invoked, in invocation order:
the current node's appenders in attachment order, then — only if the current
node is additive and has a parent — the parent's cascade. -/
def callAppendersAux (h : Hierarchy) : Nat → Nat → List Nat
  | 0, _ => []
  | fuel + 1, i =>
    match h.nodes[i]? with
    | none => []
    | some n =>
      n.appenders ++
        (if n.additive then
          match n.parent with
          | some p => callAppendersAux h fuel p
          | none => []
        else [])

/-- Modelled from the spec (§4.3): `callAppenders` at node `i`. -/
def callAppenders (h : Hierarchy) (i : Nat) : List Nat :=
  callAppendersAux h (i + 1) i

/-- Modelled from the spec (§3 LoggingEvent): the immutable record of one
log call, as constructed by `forcedLog`. -/
structure InternalLoggingEvent where
  ll : Nat
  message : String
  file : Option String
  line : Int
deriving DecidableEq, Repr, Inhabited

/-- The observable effect of one logging call: which event objects were
constructed and, for each `append` invocation in order, the receiving
appender's identity with the delivered event. -/
structure LogOutcome where
  constructedEvents : List InternalLoggingEvent
  appendCalls : List (Nat × InternalLoggingEvent)
deriving DecidableEq, Repr, Inhabited

/-- The outcome of a call that does nothing observable. -/
def emptyOutcome : LogOutcome := ⟨[], []⟩

/-- Modelled from the spec (§4.3, §4.4 step 5): `forcedLog` constructs the
event and dispatches it through the appender cascade without any
`isEnabledFor` check; after shutdown it degrades to a no-op. -/
def forcedLog (h : Hierarchy) (i : Nat) (ll : Nat) (message : String)
    (file : Option String) (line : Int) : LogOutcome :=
  if h.shutDown then emptyOutcome
  else
    ⟨[⟨ll, message, file, line⟩],
     (callAppenders h i).map (fun a => (a, ⟨ll, message, file, line⟩))⟩

/-- Modelled from the spec (§4.3, §4.4 step 5): `log` checks
`isEnabledFor(ll)` and, if enabled, performs `forcedLog`'s construction and
dispatch; otherwise it is a no-op; after shutdown it is a no-op. -/
def log (h : Hierarchy) (i : Nat) (ll : Nat) (message : String)
    (file : Option String) (line : Int) : LogOutcome :=
  if h.shutDown then emptyOutcome
  else if isEnabledFor h i ll then forcedLog h i ll message file line
  else emptyOutcome

/-- Translated from the source (logger.h:146–151): `Logger::assertion` —
`if (!assertionVal) { log(FATAL_LOG_LEVEL, msg); }`.  The `file`/`line`
arguments take `log`'s defaults `NULL` and `-1`. -/
def assertion (h : Hierarchy) (i : Nat) (assertionVal : Bool)
    (msg : String) : LogOutcome :=
  if !assertionVal then log h i FATAL_LOG_LEVEL msg none (-1)
  else emptyOutcome

/-- Modelled from the spec (§3 appenders field, §4.3 attach operations):
`addAppender` appends at the end of the attachment-ordered sequence and does
not re-add an appender already attached by identity. -/
def addAppender (n : LoggerNode) (a : Nat) : LoggerNode :=
  if a ∈ n.appenders then n
  else { n with appenders := n.appenders ++ [a] }

/-- One `close()` invocation on an appender: sets the `closed` flag and
bumps the invocation count. -/
def closeApp (a : MockAppender) : MockAppender :=
  { a with closed := true, closeCount := a.closeCount + 1 }

/-- Modelled from the spec (§4.4): `shutdown()` — on a live hierarchy, close
every appender reachable from some node (once each), remove all appenders
from all nodes, and mark the hierarchy shut down; on an already-shut-down
hierarchy, do nothing.  The nested-before-plain close ordering of §4.4 steps
2–4 affects only the order of `close` calls among distinct appenders, which
this per-appender state does not distinguish. -/
def shutdown (h : Hierarchy) : Hierarchy :=
  if h.shutDown then h
  else
    { nodes := h.nodes.map (fun n => { n with appenders := [] }),
      apps := h.apps.map (fun a =>
        if a.id ∈ h.nodes.flatMap (fun n => n.appenders) then closeApp a
        else a),
      shutDown := true }

/-- The spec's §8 concrete scenario: root at WARN; "svc" at INFO holding
appender 1; "svc.db" with no assigned level holding appender 0. -/
def hTest : Hierarchy :=
  { nodes :=
      [⟨"root", some WARN_LOG_LEVEL, true, [], none⟩,
       ⟨"svc", some INFO_LOG_LEVEL, true, [1], some 0⟩,
       ⟨"svc.db", none, true, [0], some 1⟩],
    apps := [⟨0, false, 0⟩, ⟨1, false, 0⟩],
    shutDown := false }

/-- A single-node hierarchy: root at DEBUG with appender 0 attached. -/
def hLive : Hierarchy :=
  { nodes := [⟨"root", some DEBUG_LOG_LEVEL, true, [0], none⟩],
    apps := [⟨0, false, 0⟩],
    shutDown := false }

/-- A single-node hierarchy whose root level is OFF, appender 0 attached:
no severity is enabled at any node. -/
def hOff : Hierarchy :=
  { nodes := [⟨"root", some OFF_LOG_LEVEL, true, [0], none⟩],
    apps := [⟨0, false, 0⟩],
    shutDown := false }

/-- A single-node hierarchy: root at DEBUG with appenders 0 then 1. -/
def hPair : Hierarchy :=
  { nodes := [⟨"root", some DEBUG_LOG_LEVEL, true, [0, 1], none⟩],
    apps := [⟨0, false, 0⟩, ⟨1, false, 0⟩],
    shutDown := false }

/-- In a well-formed hierarchy, a valid index yields the node stored there. -/
theorem nodes_get (h : Hierarchy) (i : Nat) (hi : i < h.nodes.length) :
    ∃ n, h.nodes[i]? = some n ∧ h.nodes.getD i default = n := by
  refine ⟨h.nodes[i], List.getElem?_eq_getElem hi, ?_⟩
  simp [List.getD_eq_getElem?_getD, List.getElem?_eq_getElem hi]

/-- A well-formed parent link points strictly towards root. -/
theorem parent_lt (h : Hierarchy) (hwf : WF h) (i : Nat)
    (hi : i < h.nodes.length) (n : LoggerNode)
    (hgd : h.nodes.getD i default = n) (p : Nat)
    (hp : n.parent = some p) : p < i := by
  have hpok := hwf.2.2 i hi
  rw [hgd, parentOK, hp] at hpok
  simpa using hpok

/-- A well-formed parentless node sits at the root index. -/
theorem parent_none_root (h : Hierarchy) (hwf : WF h) (i : Nat)
    (hi : i < h.nodes.length) (n : LoggerNode)
    (hgd : h.nodes.getD i default = n)
    (hp : n.parent = none) : i = 0 := by
  have hpok := hwf.2.2 i hi
  rw [hgd, parentOK, hp] at hpok
  simpa using hpok

/-- Definitional unfolding of one step of the chained-level walk. -/
theorem chainedLevelAux_succ (h : Hierarchy) (fuel i : Nat) :
    chainedLevelAux h (fuel + 1) i =
      match h.nodes[i]? with
      | none => none
      | some n =>
        match n.assignedLevel with
        | some l => some l
        | none =>
          match n.parent with
          | some p => chainedLevelAux h fuel p
          | none => none := rfl

/-- Definitional unfolding of one step of the appender cascade. -/
theorem callAppendersAux_succ (h : Hierarchy) (fuel i : Nat) :
    callAppendersAux h (fuel + 1) i =
      match h.nodes[i]? with
      | none => []
      | some n =>
        n.appenders ++
          (if n.additive then
            match n.parent with
            | some p => callAppendersAux h fuel p
            | none => []
          else []) := rfl

/-- Fuel irrelevance for the chained-level walk: in a well-formed hierarchy,
any fuel of at least `i + 1` computes the same answer as fuel `i + 1`,
because parent indices strictly decrease. -/
theorem chainedLevelAux_fuel (h : Hierarchy) (hwf : WF h) :
    ∀ i, i < h.nodes.length → ∀ fuel, i + 1 ≤ fuel →
      chainedLevelAux h fuel i = chainedLevelAux h (i + 1) i := by
  intro i
  induction i using Nat.strong_induction_on with
  | _ i ih =>
    intro hi fuel hfuel
    obtain ⟨f, rfl⟩ : ∃ f, fuel = f + 1 := ⟨fuel - 1, by omega⟩
    obtain ⟨n, hn, hgd⟩ := nodes_get h i hi
    cases hA : n.assignedLevel with
    | some l => simp only [chainedLevelAux_succ, hn, hA]
    | none =>
      cases hP : n.parent with
      | none => simp only [chainedLevelAux_succ, hn, hA, hP]
      | some p =>
        have hpi : p < i := parent_lt h hwf i hi n hgd p hP
        have hplen : p < h.nodes.length := lt_trans hpi hi
        simp only [chainedLevelAux_succ, hn, hA, hP]
        rw [ih p hpi hplen f (by omega), ih p hpi hplen i (by omega)]

/-- In a well-formed hierarchy every valid node resolves to a concrete
chained level: the walk reaches a node with an assigned level before or at
root, which is guaranteed concrete. -/
theorem chainedLevel_isSome (h : Hierarchy) (hwf : WF h) :
    ∀ i, i < h.nodes.length → (getChainedLogLevel h i).isSome = true := by
  intro i
  induction i using Nat.strong_induction_on with
  | _ i ih =>
    intro hi
    obtain ⟨n, hn, hgd⟩ := nodes_get h i hi
    cases hA : n.assignedLevel with
    | some l => simp only [getChainedLogLevel, chainedLevelAux_succ, hn, hA, Option.isSome_some]
    | none =>
      cases hP : n.parent with
      | none =>
        exfalso
        have hi0 : i = 0 := parent_none_root h hwf i hi n hgd hP
        have hroot := hwf.2.1
        rw [hi0] at hgd
        rw [hgd, hA] at hroot
        simp at hroot
      | some p =>
        have hpi : p < i := parent_lt h hwf i hi n hgd p hP
        have hplen : p < h.nodes.length := lt_trans hpi hi
        have hstep : getChainedLogLevel h i = chainedLevelAux h i p := by
          simp only [getChainedLogLevel, chainedLevelAux_succ, hn, hA, hP]
        rw [hstep, chainedLevelAux_fuel h hwf p hplen i (by omega)]
        exact ih p hpi hplen

/-- Fuel irrelevance for the appender cascade, analogous to
`chainedLevelAux_fuel`. -/
theorem callAppendersAux_fuel (h : Hierarchy) (hwf : WF h) :
    ∀ i, i < h.nodes.length → ∀ fuel, i + 1 ≤ fuel →
      callAppendersAux h fuel i = callAppendersAux h (i + 1) i := by
  intro i
  induction i using Nat.strong_induction_on with
  | _ i ih =>
    intro hi fuel hfuel
    obtain ⟨f, rfl⟩ : ∃ f, fuel = f + 1 := ⟨fuel - 1, by omega⟩
    obtain ⟨n, hn, hgd⟩ := nodes_get h i hi
    cases hAd : n.additive with
    | false => simp only [callAppendersAux_succ, hn, hAd, Bool.false_eq_true, if_false]
    | true =>
      cases hP : n.parent with
      | none => simp only [callAppendersAux_succ, hn, hAd, hP, if_true]
      | some p =>
        have hpi : p < i := parent_lt h hwf i hi n hgd p hP
        have hplen : p < h.nodes.length := lt_trans hpi hi
        simp only [callAppendersAux_succ, hn, hAd, hP, if_true]
        rw [ih p hpi hplen f (by omega), ih p hpi hplen i (by omega)]

/-- One unfolding step of the cascade at a valid node. -/
theorem callAppenders_step (h : Hierarchy) (i : Nat) (n : LoggerNode)
    (hn : h.nodes[i]? = some n) :
    callAppenders h i =
      n.appenders ++
        (if n.additive then
          match n.parent with
          | some p => callAppendersAux h i p
          | none => []
        else []) := by
  simp only [callAppenders, callAppendersAux_succ, hn]

/-- C2: for every well-formed hierarchy and valid node, `isEnabledFor ll`
is true iff `ll`'s severity is at least the node's chained (effective)
level's severity under TRACE < DEBUG < INFO < WARN < ERROR < FATAL < OFF;
in particular a node whose resolved level is OFF is enabled for no message
severity. -/
theorem isEnabledFor_spec (h : Hierarchy) (i : Nat) (hwf : WF h)
    (hi : i < h.nodes.length) :
    ∃ cl, getChainedLogLevel h i = some cl ∧
      (∀ ll, isEnabledFor h i ll = true ↔ cl ≤ ll) ∧
      (cl = OFF_LOG_LEVEL →
        ∀ ll ∈ eventLogLevels, isEnabledFor h i ll = false) := by
  obtain ⟨cl, hcl⟩ :=
    Option.isSome_iff_exists.mp (chainedLevel_isSome h hwf i hi)
  refine ⟨cl, hcl, ?_, ?_⟩
  · intro ll
    simp [isEnabledFor, hcl]
  · intro hoff ll hll
    subst hoff
    simp only [isEnabledFor, hcl, decide_eq_false_iff_not]
    simp only [eventLogLevels, List.mem_cons, List.not_mem_nil, or_false] at hll
    rcases hll with rfl | rfl | rfl | rfl | rfl | rfl <;> decide

/-- Witness for C2 at the spec's §8 scenario, node "svc.db". -/
theorem isEnabledFor_spec_witness :
    ∃ cl, getChainedLogLevel hTest 2 = some cl ∧
      (∀ ll, isEnabledFor hTest 2 ll = true ↔ cl ≤ ll) ∧
      (cl = OFF_LOG_LEVEL →
        ∀ ll ∈ eventLogLevels, isEnabledFor hTest 2 ll = false) :=
  isEnabledFor_spec hTest 2 (by decide) (by decide)

/-- C4: for every well-formed hierarchy and valid node, the chained-level
parent walk terminates with a concrete level (never "not set"), and any
fuel of at least the node's arena index plus one — a bound on its ancestor
depth — computes that same level, so the walk is bounded by ancestor
depth. -/
theorem getChainedLogLevel_total (h : Hierarchy) (i : Nat) (hwf : WF h)
    (hi : i < h.nodes.length) :
    (∃ l, getChainedLogLevel h i = some l) ∧
      ∀ fuel, i + 1 ≤ fuel → chainedLevelAux h fuel i = getChainedLogLevel h i := by
  constructor
  · exact Option.isSome_iff_exists.mp (chainedLevel_isSome h hwf i hi)
  · intro fuel hf
    exact chainedLevelAux_fuel h hwf i hi fuel hf

/-- Witness for C4 at the spec's §8 scenario, node "svc.db". -/
theorem getChainedLogLevel_total_witness :
    (∃ l, getChainedLogLevel hTest 2 = some l) ∧
      ∀ fuel, 2 + 1 ≤ fuel → chainedLevelAux hTest fuel 2 = getChainedLogLevel hTest 2 :=
  getChainedLogLevel_total hTest 2 (by decide) (by decide)

/-- C3: the cascade starting at node `i` invokes every appender attached to
the current node regardless of the node's additive flag; it continues to the
parent's cascade iff the node is additive and has a parent (root has none);
with additive = false it delivers exactly the node's own appenders and never
propagates to any ancestor's appenders. -/
theorem callAppenders_additivity (h : Hierarchy) (i : Nat) (n : LoggerNode)
    (hwf : WF h) (hi : i < h.nodes.length) (hn : h.nodes[i]? = some n) :
    (∀ a ∈ n.appenders, a ∈ callAppenders h i) ∧
      (n.additive = false → callAppenders h i = n.appenders) ∧
      (n.additive = true → ∀ p, n.parent = some p →
        callAppenders h i = n.appenders ++ callAppenders h p) ∧
      (n.additive = true → n.parent = none → callAppenders h i = n.appenders) := by
  have hstep := callAppenders_step h i n hn
  have hgd : h.nodes.getD i default = n := by
    simp [List.getD_eq_getElem?_getD, hn]
  refine ⟨?_, ?_, ?_, ?_⟩
  · intro a ha
    rw [hstep]
    exact List.mem_append_left _ ha
  · intro hAd
    rw [hstep, hAd]
    simp
  · intro hAd p hP
    have hpi : p < i := parent_lt h hwf i hi n hgd p hP
    have hplen : p < h.nodes.length := lt_trans hpi hi
    rw [hstep, hAd, hP]
    simp only [if_true]
    rw [callAppendersAux_fuel h hwf p hplen i (by omega)]
    rfl
  · intro hAd hP
    rw [hstep, hAd, hP]
    simp

/-- Witness for C3 at the spec's §8 scenario, node "svc.db" (appender 0,
additive, parent "svc"). -/
theorem callAppenders_additivity_witness :
    (0 : Nat) ∈ callAppenders hTest 2 ∧
      callAppenders hTest 2 = [0] ++ callAppenders hTest 1 :=
  ⟨(callAppenders_additivity hTest 2 ⟨"svc.db", none, true, [0], some 1⟩
      (by decide) (by decide) (by decide)).1 0 (by decide),
   (callAppenders_additivity hTest 2 ⟨"svc.db", none, true, [0], some 1⟩
      (by decide) (by decide) (by decide)).2.2.1 rfl 1 rfl⟩

/-- C5: `forcedLog` differs from `log` only in omitting the `isEnabledFor`
check: on a live hierarchy it always constructs the event and performs the
cascade dispatch, enabled or not, and whenever the node is enabled `log`
and `forcedLog` produce the same observable outcome. -/
theorem forcedLog_skips_check (h : Hierarchy) (i ll : Nat) (msg : String)
    (file : Option String) (line : Int) (hsd : h.shutDown = false) :
    (isEnabledFor h i ll = true →
        log h i ll msg file line = forcedLog h i ll msg file line) ∧
      (forcedLog h i ll msg file line).constructedEvents = [⟨ll, msg, file, line⟩] ∧
      (forcedLog h i ll msg file line).appendCalls =
        (callAppenders h i).map (fun a => (a, ⟨ll, msg, file, line⟩)) := by
  refine ⟨?_, ?_, ?_⟩
  · intro he
    simp [log, hsd, he]
  · simp [forcedLog, hsd]
  · simp [forcedLog, hsd]

/-- Witness for C5 on `hTest` at "svc.db" with DEBUG (a disabled severity:
`forcedLog` still constructs and dispatches). -/
theorem forcedLog_skips_check_witness :
    (isEnabledFor hTest 2 DEBUG_LOG_LEVEL = true →
        log hTest 2 DEBUG_LOG_LEVEL "m" none (-1) =
          forcedLog hTest 2 DEBUG_LOG_LEVEL "m" none (-1)) ∧
      (forcedLog hTest 2 DEBUG_LOG_LEVEL "m" none (-1)).constructedEvents =
        [⟨DEBUG_LOG_LEVEL, "m", none, -1⟩] ∧
      (forcedLog hTest 2 DEBUG_LOG_LEVEL "m" none (-1)).appendCalls =
        (callAppenders hTest 2).map (fun a => (a, ⟨DEBUG_LOG_LEVEL, "m", none, -1⟩)) :=
  forcedLog_skips_check hTest 2 DEBUG_LOG_LEVEL "m" none (-1) (by decide)

/-- C6: when the node is not enabled for `ll`, `log` has no observable
effect: its outcome is the empty outcome — no event object constructed, no
`append` invoked.  (`log` takes the hierarchy by value and returns only an
outcome, so no logger or hierarchy state changes.) -/
theorem log_disabled_noop (h : Hierarchy) (i ll : Nat) (msg : String)
    (file : Option String) (line : Int)
    (hne : isEnabledFor h i ll = false) :
    log h i ll msg file line = emptyOutcome ∧
      (log h i ll msg file line).constructedEvents = [] ∧
      (log h i ll msg file line).appendCalls = [] := by
  have hb : log h i ll msg file line = emptyOutcome := by
    simp [log, hne]
  exact ⟨hb, by rw [hb]; rfl, by rw [hb]; rfl⟩

/-- Witness for C6: DEBUG on "svc.db" resolves against INFO and is
suppressed with no side effects (the spec's §8 disabled scenario). -/
theorem log_disabled_noop_witness :
    log hTest 2 DEBUG_LOG_LEVEL "m" none (-1) = emptyOutcome ∧
      (log hTest 2 DEBUG_LOG_LEVEL "m" none (-1)).constructedEvents = [] ∧
      (log hTest 2 DEBUG_LOG_LEVEL "m" none (-1)).appendCalls = [] :=
  log_disabled_noop hTest 2 DEBUG_LOG_LEVEL "m" none (-1) (by decide)

/-- C1 counterexample: on a hierarchy whose root level is OFF,
`assertion(false, msg)` emits nothing — the `isEnabledFor(FATAL)` check
inside `log` suppresses it — while `forcedLog(FATAL, msg)` does emit.  So
the `assertion` of logger.h:146–151, which calls `log(FATAL_LOG_LEVEL, msg)`,
is NOT unconditional in the manner of `forcedLog`. -/
theorem assertion_is_checked_cex :
    assertion hOff 0 false "m" = emptyOutcome ∧
      forcedLog hOff 0 FATAL_LOG_LEVEL "m" none (-1) ≠ emptyOutcome := by
  decide

/-- C1 (amended): `assertion(false, msg)` logs `msg` through the
severity-checked `log(FATAL_LOG_LEVEL, msg)` path, so it is subject to the
`isEnabledFor(FATAL)` check against the chained level; only when the node is
enabled for FATAL does it coincide with `forcedLog(FATAL, msg)`. -/
theorem assertion_is_checked (h : Hierarchy) (i : Nat) (msg : String) :
    assertion h i false msg = log h i FATAL_LOG_LEVEL msg none (-1) ∧
      (isEnabledFor h i FATAL_LOG_LEVEL = true →
        assertion h i false msg = forcedLog h i FATAL_LOG_LEVEL msg none (-1)) := by
  constructor
  · rfl
  · intro he
    by_cases hsd : h.shutDown <;> simp [assertion, log, forcedLog, he, hsd]

/-- Witness for C1's amended theorem on `hLive`, where FATAL is enabled. -/
theorem assertion_is_checked_witness :
    assertion hLive 0 false "m" = forcedLog hLive 0 FATAL_LOG_LEVEL "m" none (-1) :=
  (assertion_is_checked hLive 0 "m").2 (by decide)

/-- C10: `assertion(true, msg)` performs no logging at all, and
`assertion(false, msg)` is exactly `log(FATAL_LOG_LEVEL, msg)` — the
severity-checked path at FATAL, which differs from ERROR — so every event
it delivers carries FATAL severity. -/
theorem assertion_fatal (h : Hierarchy) (i : Nat) (msg : String) :
    assertion h i true msg = emptyOutcome ∧
      assertion h i false msg = log h i FATAL_LOG_LEVEL msg none (-1) ∧
      FATAL_LOG_LEVEL ≠ ERROR_LOG_LEVEL ∧
      ∀ c ∈ (assertion h i false msg).appendCalls, c.2.ll = FATAL_LOG_LEVEL := by
  refine ⟨rfl, rfl, by decide, ?_⟩
  intro c hc
  by_cases hsd : h.shutDown
  · simp [assertion, log, hsd, emptyOutcome] at hc
  · by_cases he : isEnabledFor h i FATAL_LOG_LEVEL
    · simp only [assertion, log, forcedLog, hsd, he, Bool.not_false,
        if_true, if_false, Bool.false_eq_true] at hc
      simp only [List.mem_map] at hc
      obtain ⟨a, _, rfl⟩ := hc
      rfl
    · simp [assertion, log, hsd, he, emptyOutcome] at hc

/-- Witness for C10 on `hLive`: the one delivered call carries FATAL. -/
theorem assertion_fatal_witness :
    ((0, (⟨FATAL_LOG_LEVEL, "m", none, -1⟩ : InternalLoggingEvent)) ∈
        (assertion hLive 0 false "m").appendCalls) ∧
      ((0 : Nat), (⟨FATAL_LOG_LEVEL, "m", none, -1⟩ : InternalLoggingEvent)).2.ll =
        FATAL_LOG_LEVEL :=
  ⟨by decide, (assertion_fatal hLive 0 "m").2.2.2 _ (by decide)⟩

/-- After any `shutdown`, the hierarchy is marked shut down. -/
theorem shutdown_marks (h : Hierarchy) : (shutdown h).shutDown = true := by
  by_cases hsd : h.shutDown <;> simp [shutdown, hsd]

/-- `shutdown` on an already-shut-down hierarchy does nothing. -/
theorem shutdown_of_marked (s : Hierarchy) (hs : s.shutDown = true) :
    shutdown s = s := by
  simp [shutdown, hs]

/-- C7: `shutdown` is idempotent — a second call performs no further action,
so the observable state after two calls equals the state after one; and the
first call on a live hierarchy invokes `close` at most once per appender
(each close count grows by at most one). -/
theorem shutdown_idempotent (h : Hierarchy) (hsd : h.shutDown = false) :
    shutdown (shutdown h) = shutdown h ∧
      ∀ a ∈ h.apps, ∃ b ∈ (shutdown h).apps,
        b.id = a.id ∧ b.closeCount ≤ a.closeCount + 1 := by
  constructor
  · exact shutdown_of_marked (shutdown h) (shutdown_marks h)
  · intro a ha
    refine ⟨if a.id ∈ h.nodes.flatMap (fun n => n.appenders) then closeApp a
        else a, ?_, ?_, ?_⟩
    · simp only [shutdown, hsd, Bool.false_eq_true, if_false]
      exact List.mem_map_of_mem _ ha
    · by_cases hm : a.id ∈ h.nodes.flatMap (fun n => n.appenders) <;>
        simp [hm, closeApp]
    · by_cases hm : a.id ∈ h.nodes.flatMap (fun n => n.appenders) <;>
        simp [hm, closeApp]

/-- Witness for C7 on `hTest`. -/
theorem shutdown_idempotent_witness :
    shutdown (shutdown hTest) = shutdown hTest ∧
      ∃ b ∈ (shutdown hTest).apps,
        b.id = (⟨0, false, 0⟩ : MockAppender).id ∧
          b.closeCount ≤ (⟨0, false, 0⟩ : MockAppender).closeCount + 1 :=
  ⟨(shutdown_idempotent hTest (by decide)).1,
   (shutdown_idempotent hTest (by decide)).2 ⟨0, false, 0⟩ (by decide)⟩

/-- C8: once `shutdown` has marked the hierarchy shut down, every subsequent
`log` or `forcedLog` call is a silent no-op: the (total, exception-free)
functions return the empty outcome — no event constructed, no `append`
invoked on any (closed) sink, nothing reported to the caller. -/
theorem post_shutdown_noop (h : Hierarchy) (i ll : Nat) (msg : String)
    (file : Option String) (line : Int) :
    log (shutdown h) i ll msg file line = emptyOutcome ∧
      forcedLog (shutdown h) i ll msg file line = emptyOutcome := by
  have hs := shutdown_marks h
  constructor <;> simp [log, forcedLog, hs]

/-- C9: `addAppender` does not re-add an appender already attached by
identity and otherwise appends at the end of the attachment order; and when
appender A precedes appender B in a node's attachment order, A's `append`
is invoked before B's in the cascade dispatched at that node. -/
theorem addAppender_ordered (n : LoggerNode) (x : Nat) (h : Hierarchy)
    (i : Nat) (nd : LoggerNode) (A B : Nat) (hn : h.nodes[i]? = some nd)
    (hA : A ∈ nd.appenders) (hB : B ∈ nd.appenders)
    (hord : nd.appenders.indexOf A < nd.appenders.indexOf B) :
    (x ∈ n.appenders → addAppender n x = n) ∧
      (x ∉ n.appenders → (addAppender n x).appenders = n.appenders ++ [x]) ∧
      (callAppenders h i).indexOf A < (callAppenders h i).indexOf B := by
  refine ⟨?_, ?_, ?_⟩
  · intro hx
    simp [addAppender, hx]
  · intro hx
    simp [addAppender, hx]
  · rw [callAppenders_step h i nd hn,
      List.indexOf_append_of_mem hA, List.indexOf_append_of_mem hB]
    exact hord

/-- Witness for C9 on `hPair` (root holds appenders 0 then 1): re-adding 0
changes nothing, adding fresh 7 appends at the end, and 0 is dispatched
before 1. -/
theorem addAppender_ordered_witness :
    (addAppender ⟨"root", some DEBUG_LOG_LEVEL, true, [0, 1], none⟩ 0 =
        ⟨"root", some DEBUG_LOG_LEVEL, true, [0, 1], none⟩) ∧
      ((addAppender ⟨"root", some DEBUG_LOG_LEVEL, true, [0, 1], none⟩ 7).appenders =
        [0, 1] ++ [7]) ∧
      (callAppenders hPair 0).indexOf 0 < (callAppenders hPair 0).indexOf 1 :=
  ⟨(addAppender_ordered ⟨"root", some DEBUG_LOG_LEVEL, true, [0, 1], none⟩ 0
      hPair 0 ⟨"root", some DEBUG_LOG_LEVEL, true, [0, 1], none⟩ 0 1
      (by decide) (by decide) (by decide) (by decide)).1 (by decide),
   (addAppender_ordered ⟨"root", some DEBUG_LOG_LEVEL, true, [0, 1], none⟩ 7
      hPair 0 ⟨"root", some DEBUG_LOG_LEVEL, true, [0, 1], none⟩ 0 1
      (by decide) (by decide) (by decide) (by decide)).2.1 (by decide),
   (addAppender_ordered ⟨"root", some DEBUG_LOG_LEVEL, true, [0, 1], none⟩ 7
      hPair 0 ⟨"root", some DEBUG_LOG_LEVEL, true, [0, 1], none⟩ 0 1
      (by decide) (by decide) (by decide) (by decide)).2.2⟩

end Log4cplus
